import Mathlib

/-!
Shallow embedding of the response-capture and rich-text-to-Markdown engine of
the chatbot repository, together with proofs about the specified behaviour.

The JavaScript sources embedded here are:
* `normalizeMarkdown`, `looksLikeMarkdown`, the final-extraction selection in
  `waitForResponseAndRender`, the DOM walker `domToMarkdown` with its helpers
  (`fenceFor`, `inlineFence`, `escapeTableCell`, `extractTable`,
  `extractCodeBlock`), and the clipboard interception in `fetchCopyMarkdown`;
* the polling loop inside `streamResponse`.

Strings are modelled as lists of characters (`String` at the interface);
JavaScript string-length and index arithmetic is modelled at character
granularity, and `String.prototype.trim` is modelled by `jsTrimL` over the
JavaScript whitespace class.
-/

namespace Chatbot

abbrev Line := List Char

/-- The JavaScript whitespace class (`\s`, and the characters stripped by
`String.prototype.trim`), restricted to the characters that can occur in the
texts handled here. -/
def isJsWs (c : Char) : Bool :=
  c = ' ' || c = '\t' || c = '\n' || c = '\r' || c = '\x0b' || c = '\x0c'

/-- JavaScript `String.prototype.trim` on a character list: strip whitespace from both
ends. -/
def jsTrimL (l : List Char) : List Char :=
  ((l.dropWhile isJsWs).reverse.dropWhile isJsWs).reverse

/-- JavaScript `s.endsWith('  ')`: the last two characters are spaces. -/
def twoSpaceSuffix (l : List Char) : Bool :=
  match l.reverse with
  | ' ' :: ' ' :: _ => true
  | _ => false

/-- Function `countPipes` from `normalizeMarkdown`: count characters `|` that are not
preceded by a backslash (the first character counts as unpreceded). -/
def countPipesAux (prev : Option Char) : List Char → Nat
  | [] => 0
  | c :: rest =>
    (if c = '|' ∧ prev ≠ some '\\' then 1 else 0) + countPipesAux (some c) rest

def countPipes (l : Line) : Nat := countPipesAux none l

/-- A character allowed inside the dash section of a table separator line. -/
def isSepChar (c : Char) : Bool := c = '-' || c = ':' || isJsWs c

/-- Function `isTableSepLine` from `normalizeMarkdown`: the regular expression
`^\s*\|?[-:\s]+\|[-:\s|]*$`. -/
def isTableSepLine (l : Line) : Bool :=
  let r1 := l.dropWhile isJsWs
  let r2 := match r1 with
    | '|' :: t => t
    | _ => r1
  let core := r2.takeWhile isSepChar
  let rest := r2.dropWhile isSepChar
  decide (core ≠ []) &&
    (match rest with
     | '|' :: tail => tail.all (fun c => isSepChar c || c = '|')
     | _ => false)

def isBulletChar (c : Char) : Bool := c = '-' || c = '*' || c = '+'

/-- The block-start test of `normalizeMarkdown`: the regular expression
`^(#{1,6}\s|>|\s*[-*+]\s|\s*\d+\.\s|---$|___$|\*\*\*$|\s*•\s)`. -/
def isBlockStart (l : Line) : Bool :=
  (let h := l.takeWhile (· = '#')
   decide (1 ≤ h.length) && decide (h.length ≤ 6) &&
     (match l.drop h.length with
      | c :: _ => isJsWs c
      | [] => false)) ||
  (match l with
   | '>' :: _ => true
   | _ => false) ||
  (match l.dropWhile isJsWs with
   | b :: c :: _ => isBulletChar b && isJsWs c
   | _ => false) ||
  (let r := l.dropWhile isJsWs
   let d := r.takeWhile Char.isDigit
   decide (d ≠ []) &&
     (match r.drop d.length with
      | '.' :: c :: _ => isJsWs c
      | _ => false)) ||
  decide (l = "---".data) || decide (l = "___".data) || decide (l = "***".data) ||
  (match l.dropWhile isJsWs with
   | '•' :: c :: _ => isJsWs c
   | _ => false)

/-- A line whose trimmed form starts with a triple backtick: in
`normalizeMarkdown` such a line toggles fence mode. -/
def isFenceLine (l : Line) : Bool := "```".data.isPrefixOf (jsTrimL l)

/-- The scanning state of `normalizeMarkdown`: the output lines built so far
(most recent first), fence mode, table mode and the pipe count of the current
table. -/
structure NormSt where
  out : List Line
  inFence : Bool
  inTable : Bool
  tablePipeCount : Nat
deriving DecidableEq

/-- One iteration of the line loop of `normalizeMarkdown`; `next` is
`lines[i + 1] || ''`. -/
def normStep (st : NormSt) (line next : Line) : NormSt :=
  let trimmed := jsTrimL line
  if isFenceLine line then
    { st with inFence := !st.inFence, out := line :: st.out }
  else if st.inFence then
    { st with out := line :: st.out }
  else
    let pipeCount := countPipes line
    if st.inTable = false ∧ 2 ≤ pipeCount ∧ isTableSepLine next = true then
      { st with inTable := true, tablePipeCount := pipeCount, out := line :: st.out }
    else if st.inTable then
      if trimmed = [] then
        { st with out := [] :: st.out, inTable := false, tablePipeCount := 0 }
      else if isTableSepLine line = true ∨ st.tablePipeCount ≤ pipeCount then
        { st with out := line :: st.out }
      else if st.out = [] then { st with out := [trimmed] }
      else { st with out := (st.out.headD [] ++ ' ' :: trimmed) :: st.out.tail }
    else if trimmed = [] then
      { st with out := [] :: st.out }
    else if isBlockStart line then
      { st with out := line :: st.out }
    else
      let prev := st.out.headD []
      if st.out ≠ [] ∧ prev ≠ [] ∧ isBlockStart prev = false ∧
          twoSpaceSuffix (jsTrimL prev) = false then
        { st with out := (prev ++ ' ' :: trimmed) :: st.out.tail }
      else
        { st with out := trimmed :: st.out }

/-- The whole line loop of `normalizeMarkdown`. -/
def normLoop : NormSt → List Line → NormSt
  | st, [] => st
  | st, l :: ls => normLoop (normStep st l (ls.headD [])) ls

def initNormSt : NormSt := ⟨[], false, false, 0⟩

/-- Function `normalizeMarkdown` at the level of line lists. -/
def normalizedLines (ls : List Line) : List Line :=
  (normLoop initNormSt ls).out.reverse

/-- Function `normalizeMarkdown` from the source: split on newlines, run the scanning
loop, and rejoin with newlines. -/
def normalizeMarkdown (md : String) : String :=
  ⟨List.intercalate ['\n'] (normalizedLines (md.data.splitOn '\n'))⟩

/-- One line-start alternative of the `looksLikeMarkdown` regular expression:
`^\s{0,3}#{1,6}\s` (with the `m` flag, `^` matches at every line start). -/
def headingLoose (l : List Char) : Bool :=
  let w := l.takeWhile isJsWs
  decide (w.length ≤ 3) &&
    (let r := l.drop w.length
     let h := r.takeWhile (· = '#')
     decide (1 ≤ h.length) && decide (h.length ≤ 6) &&
       (match r.drop h.length with
        | c :: _ => isJsWs c
        | [] => false))

/-- Whether some alternative of the `looksLikeMarkdown` regular expression
matches at the start of the suffix `l`; `atStart` records whether this
position is a line start. -/
def llmAlt (atStart : Bool) (l : List Char) : Bool :=
  "```".data.isPrefixOf l ||
  (atStart && headingLoose l) ||
  (match l with
   | '\n' :: r =>
     (match r.dropWhile isJsWs with
      | b :: c :: _ => isBulletChar b && isJsWs c
      | _ => false) ||
     (let r2 := r.dropWhile isJsWs
      let d := r2.takeWhile Char.isDigit
      decide (d ≠ []) &&
        (match r2.drop d.length with
         | '.' :: c :: _ => isJsWs c
         | _ => false))
   | _ => false) ||
  (match l with
   | '|' :: r => "---".data.isPrefixOf (r.dropWhile isJsWs)
   | _ => false) ||
  (match l with
   | '[' :: r =>
     let inner := r.takeWhile (· ≠ ']')
     decide (inner ≠ []) &&
       (match r.drop inner.length with
        | ']' :: '(' :: r2 =>
          let inner2 := r2.takeWhile (· ≠ ')')
          decide (inner2 ≠ []) &&
            (match r2.drop inner2.length with
             | ')' :: _ => true
             | _ => false)
        | _ => false)
   | _ => false) ||
  (match l with
   | '`' :: r =>
     let inner := r.takeWhile (· ≠ '`')
     decide (inner ≠ []) &&
       (match r.drop inner.length with
        | '`' :: _ => true
        | _ => false)
   | _ => false)

def llmScan : Bool → List Char → Bool
  | _, [] => false
  | atStart, c :: rest => llmAlt atStart (c :: rest) || llmScan (c = '\n') rest

/-- Function `looksLikeMarkdown` from the source: empty text is not Markdown; otherwise
test the regular expression
`/```|^\s{0,3}#{1,6}\s|\n\s*[-*+]\s|\n\s*\d+\.\s|\|\s*---|\[[^\]]+\]\([^)]+\)|`[^`]+`/m`
anywhere in the text. -/
def looksLikeMarkdown (text : String) : Bool :=
  if text.data = [] then false else llmScan true text.data

/-- The final-extraction selection of `waitForResponseAndRender`:
`copy` is the result of `fetchCopyMarkdown` (`none` models `null`), `dom` the
result of `fetchDomMarkdown`.  An empty or blank copy result falls back to the
DOM walk; a non-blank copy result that does not look like Markdown is replaced
by a non-blank DOM walk; the survivor is normalized. -/
def selectFinalText (copy : Option String) (dom : String) : String :=
  match copy with
  | none => normalizeMarkdown dom
  | some c =>
    if jsTrimL c.data = [] then normalizeMarkdown dom
    else if looksLikeMarkdown c = false then
      (if jsTrimL dom.data = [] then normalizeMarkdown c else normalizeMarkdown dom)
    else normalizeMarkdown c

/-! ## The DOM model used by the rich-text walker -/

/-- A rendered DOM node: a text node, or an element with a (lower-case) tag,
class list, attribute list and children. -/
inductive DomNode where
  | text (s : List Char)
  | elem (tag : List Char) (classes : List (List Char))
      (attrs : List (List Char × List Char)) (children : List DomNode)

mutual

/-- DOM `Node.textContent`: the concatenated text of all descendant text nodes. -/
def textContent : DomNode → List Char
  | .text s => s
  | .elem _ _ _ cs => textContentList cs

def textContentList : List DomNode → List Char
  | [] => []
  | c :: cs => textContent c ++ textContentList cs

end

/-- The CSS selectors used by the walker: a tag name, a class, a tag with an
exact attribute value, or a descendant combinator. -/
inductive Sel where
  | tag (t : List Char)
  | cls (c : List Char)
  | tagAttr (t attr val : List Char)
  | desc (anc child : Sel)

def simpleMatches (s : Sel) (n : DomNode) : Bool :=
  match s, n with
  | .tag t, .elem tg _ _ _ => t = tg
  | .cls c, .elem _ cls _ _ => cls.contains c
  | .tagAttr t a v, .elem tg _ attrs _ => t = tg && (attrs.lookup a = some v)
  | _, _ => false

/-- Whether selector `s` matches node `n` whose ancestor elements (nearest
first, up to and including the query root) are `ancs`. -/
def selMatches (s : Sel) (n : DomNode) (ancs : List DomNode) : Bool :=
  match s with
  | .desc a c => simpleMatches c n && ancs.any (fun p => simpleMatches a p)
  | _ => simpleMatches s n

mutual

/-- The descendant elements of a node in document (pre-)order, each paired
with its ancestor chain. -/
def nodeDescs (ancs : List DomNode) : DomNode → List (DomNode × List DomNode)
  | .text _ => []
  | .elem t c a children => forestDescs ((DomNode.elem t c a children) :: ancs) children

def forestDescs (ancs : List DomNode) : List DomNode → List (DomNode × List DomNode)
  | [] => []
  | c :: cs =>
    (match c with
     | .text _ => []
     | .elem t cl a ch =>
       (DomNode.elem t cl a ch, ancs) :: nodeDescs ancs (DomNode.elem t cl a ch)) ++
    forestDescs ancs cs

end

/-- DOM `root.querySelectorAll(sels)` for a comma-separated selector list: the
descendant elements of `root`, in document order, matching any alternative. -/
def querySelectorAll (root : DomNode) (sels : List Sel) : List DomNode :=
  ((nodeDescs [] root).filter (fun p => sels.any (fun s => selMatches s p.1 p.2))).map
    Prod.fst

/-- DOM `root.querySelector(sels)`: the first match of `querySelectorAll`. -/
def querySelector (root : DomNode) (sels : List Sel) : Option DomNode :=
  (querySelectorAll root sels).head?

def isElem : DomNode → Bool
  | .elem _ _ _ _ => true
  | .text _ => false

/-- DOM `el.children`: the element children of a node. -/
def elemChildren : DomNode → List DomNode
  | .elem _ _ _ cs => cs.filter isElem
  | .text _ => []

def tagOf : DomNode → List Char
  | .elem t _ _ _ => t
  | .text _ => []

/-! ## The rich-text walker `domToMarkdown` and its helpers -/

/-- JavaScript `replace(/\s+/g, ' ')`: collapse every whitespace run to a single space;
`prevWs` records whether the previous character was part of a run. -/
def collapseWsAux : Bool → List Char → List Char
  | _, [] => []
  | prevWs, c :: r =>
    if isJsWs c then
      (if prevWs then collapseWsAux true r else ' ' :: collapseWsAux true r)
    else c :: collapseWsAux false r

/-- JavaScript `replace(/\|/g, '\\|')`: escape pipes with a backslash. -/
def escapePipes : List Char → List Char
  | [] => []
  | '|' :: r => '\\' :: '|' :: escapePipes r
  | c :: r => c :: escapePipes r

/-- Function `escapeTableCell` from the walker: collapse whitespace, escape pipes,
trim. -/
def escapeTableCell (text : List Char) : List Char :=
  jsTrimL (escapePipes (collapseWsAux false text))

/-- Length of the longest backtick run in a text (`text.match(/`+/g)` and the
maximum over the matches). -/
def maxBacktickRunAux : Nat → Nat → List Char → Nat
  | cur, mx, [] => max mx cur
  | cur, mx, c :: r =>
    if c = '`' then maxBacktickRunAux (cur + 1) mx r
    else maxBacktickRunAux 0 (max mx cur) r

def maxBacktickRun (l : List Char) : Nat := maxBacktickRunAux 0 0 l

/-- Function `fenceFor` from the walker: a backtick run one longer than any run in the
text, at least three. -/
def fenceFor (text : List Char) : List Char :=
  List.replicate (max 3 (maxBacktickRun text + 1)) '`'

/-- Function `inlineFence` from the walker: a backtick run one longer than any run in
the text, at least one. -/
def inlineFence (text : List Char) : List Char :=
  List.replicate (max 1 (maxBacktickRun text + 1)) '`'

/-- JavaScript `replace(/\n$/, '')`: strip one trailing newline. -/
def stripTrailingNl (l : List Char) : List Char :=
  match l.reverse with
  | '\n' :: r => r.reverse
  | _ => l

/-- Render digits of a natural number (for ordered-list markers). -/
def natChars (n : Nat) : List Char := (toString n).data

/-- Function `extractTable` from the walker: the text appended for a `table` element
(empty when the table has no header cells at all). -/
def extractTable (table : DomNode) : List Char :=
  let headerCells0 : List (List Char) :=
    match querySelector table [Sel.tag "thead".data] with
    | some thead =>
      match querySelector thead [Sel.tag "tr".data] with
      | some headerRow =>
        ((elemChildren headerRow).filter (fun el => tagOf el = "th".data)).map
          (fun el => escapeTableCell (textContent el))
      | none => []
    | none => []
  let bodyRows :=
    querySelectorAll table
      [Sel.desc (Sel.tag "tbody".data) (Sel.tag "tr".data), Sel.tag "tr".data]
  let rows0 :=
    (bodyRows.map (fun row =>
      ((elemChildren row).filter
          (fun el => tagOf el = "td".data ∨ tagOf el = "th".data)).map
        (fun el => escapeTableCell (textContent el)))).filter (fun r => r ≠ [])
  let headerCells := if headerCells0 = [] ∧ rows0 ≠ [] then rows0.headD [] else headerCells0
  let rows := if headerCells0 = [] ∧ rows0 ≠ [] then rows0.tail else rows0
  if headerCells = [] then []
  else
    let colCount := max headerCells.length ((rows.map List.length).foldl max 0)
    let padTo := fun (arr : List (List Char)) =>
      arr ++ List.replicate (colCount - arr.length) []
    let header := padTo headerCells
    let sep := header.map (fun _ => "---".data)
    let rowLine := fun (cells : List (List Char)) =>
      "| ".data ++ List.intercalate " | ".data (padTo cells) ++ " |\n".data
    "\n\n".data ++ rowLine header ++
      "| ".data ++ List.intercalate " | ".data sep ++ " |\n".data ++
      (rows.map rowLine).flatten ++ "\n".data

/-- Function `extractCodeBlock` from the walker: the text appended for a code-block
container or a `pre` element. -/
def extractCodeBlock (block : DomNode) : List Char :=
  let lang :=
    match querySelector block
        [Sel.desc (Sel.cls "code-block-decoration".data) (Sel.tag "span".data),
         Sel.desc (Sel.cls "header-formatted".data) (Sel.tag "span".data),
         Sel.cls "code-block-decoration".data] with
    | some langEl => (jsTrimL (textContent langEl)).map Char.toLower
    | none => []
  let codeText :=
    stripTrailingNl
      (match querySelector block
          [Sel.tagAttr "code".data "data-test-id".data "code-content".data,
           Sel.desc (Sel.tag "pre".data) (Sel.tag "code".data),
           Sel.tag "code".data, Sel.tag "pre".data] with
       | some codeEl => textContent codeEl
       | none => [])
  let fence := fenceFor codeText
  "\n\n".data ++ fence ++ (if lang = [] then [] else ' ' :: lang) ++
    '\n' :: codeText ++ '\n' :: fence ++ "\n\n".data

/-- Walker state: the output buffer `md` and the active-list stack (ordered
flag and running item counter; the innermost list is last, as in the source
array). -/
structure RState where
  md : List Char
  stack : List (Bool × Nat)

/-- Function `trailingNewlines` from the walker. -/
def trailingNewlines (md : List Char) : Nat :=
  (md.reverse.takeWhile (fun c => c = '\n')).length

/-- Function `ensureNewlines` from the walker: pad with newlines so the buffer ends in
at least `count` of them. -/
def ensureNewlines (md : List Char) (count : Nat) : List Char :=
  md ++ List.replicate (count - trailingNewlines md) '\n'

def headingPrefix (k : Nat) : List Char := List.replicate k '#' ++ [' ']

mutual

/-- Function `render` from the walker `domToMarkdown`: renders one node into the
buffer. -/
def renderNode (inLi : Bool) (st : RState) : DomNode → RState
  | .text s => { st with md := st.md ++ s }
  | .elem tag classes attrs children =>
    let n := DomNode.elem tag classes attrs children
    if tag = "code-block".data ∨ classes.contains "code-block".data then
      { st with md := st.md ++ extractCodeBlock n }
    else if tag = "pre".data then
      { st with md := st.md ++ extractCodeBlock n }
    else if tag = "table".data then
      { st with md := st.md ++ extractTable n }
    else if tag = "br".data then
      { st with md := st.md ++ ['\n'] }
    else if tag = "hr".data then
      { st with md := ensureNewlines (ensureNewlines st.md 2 ++ "---".data) 2 }
    else if tag = "p".data then
      if inLi then renderForest true st children
      else
        let st1 := renderForest false { st with md := ensureNewlines st.md 2 } children
        { st1 with md := ensureNewlines st1.md 2 }
    else if tag = "h1".data then
      let st1 := renderForest false
        { st with md := ensureNewlines st.md 2 ++ headingPrefix 1 } children
      { st1 with md := ensureNewlines st1.md 2 }
    else if tag = "h2".data then
      let st1 := renderForest false
        { st with md := ensureNewlines st.md 2 ++ headingPrefix 2 } children
      { st1 with md := ensureNewlines st1.md 2 }
    else if tag = "h3".data then
      let st1 := renderForest false
        { st with md := ensureNewlines st.md 2 ++ headingPrefix 3 } children
      { st1 with md := ensureNewlines st1.md 2 }
    else if tag = "h4".data then
      let st1 := renderForest false
        { st with md := ensureNewlines st.md 2 ++ headingPrefix 4 } children
      { st1 with md := ensureNewlines st1.md 2 }
    else if tag = "h5".data then
      let st1 := renderForest false
        { st with md := ensureNewlines st.md 2 ++ headingPrefix 5 } children
      { st1 with md := ensureNewlines st1.md 2 }
    else if tag = "h6".data then
      let st1 := renderForest false
        { st with md := ensureNewlines st.md 2 ++ headingPrefix 6 } children
      { st1 with md := ensureNewlines st1.md 2 }
    else if tag = "ul".data ∨ tag = "ol".data then
      let st1 := renderForest false
        { md := ensureNewlines st.md 2, stack := st.stack ++ [(decide (tag = "ol".data), 0)] }
        children
      { md := ensureNewlines st1.md 2, stack := st1.stack.dropLast }
    else if tag = "li".data then
      let md1 := ensureNewlines st.md 1
      let indent := List.replicate (2 * (st.stack.length - 1)) ' '
      match st.stack.getLast? with
      | some (true, idx) =>
        renderForest true
          { md := md1 ++ indent ++ natChars (idx + 1) ++ ". ".data,
            stack := st.stack.dropLast ++ [(true, idx + 1)] } children
      | _ =>
        renderForest true { st with md := md1 ++ indent ++ "- ".data } children
    else if tag = "blockquote".data then
      let md1 := ensureNewlines st.md 2
      let stInner := renderForest false { st with md := [] } children
      let content := (jsTrimL stInner.md).splitOn '\n'
      let withQuotes :=
        md1 ++ (content.map (fun line => '>' :: ' ' :: line ++ ['\n'])).flatten
      { stInner with md := ensureNewlines withQuotes 2 }
    else if tag = "strong".data ∨ tag = "b".data then
      let st1 := renderForest inLi { st with md := st.md ++ "**".data } children
      { st1 with md := st1.md ++ "**".data }
    else if tag = "em".data ∨ tag = "i".data then
      let st1 := renderForest inLi { st with md := st.md ++ "_".data } children
      { st1 with md := st1.md ++ "_".data }
    else if tag = "code".data then
      let t := textContent n
      let fence := inlineFence t
      { st with md := st.md ++ fence ++ t ++ fence }
    else if tag = "a".data then
      let href := (attrs.lookup "href".data).getD []
      let st1 := renderForest inLi { st with md := st.md ++ "[".data } children
      { st1 with md := st1.md ++ "](".data ++ href ++ ")".data }
    else renderForest inLi st children

/-- Function `renderChildren` from the walker. -/
def renderForest (inLi : Bool) (st : RState) : List DomNode → RState
  | [] => st
  | c :: cs => renderForest inLi (renderNode inLi st c) cs

end

/-- Function `domToMarkdown` from the source: render the node's children into an empty
buffer and trim the result. -/
def domToMarkdown (node : DomNode) : String :=
  ⟨jsTrimL (renderForest false ⟨[], []⟩
    (match node with
     | .elem _ _ _ cs => cs
     | .text _ => [])).md⟩

/-! ## The polling loop of `streamResponse` -/

/-- One poll observation of the live document: the number of matching reply
candidates, the candidate's visible text (`innerText`), whether a UI
completion marker (regenerate / thumb-up control) is present in the reply
container, the elapsed milliseconds since the poll started, and the Markdown
the DOM walker would produce for the candidate at this tick. -/
structure PollObs where
  count : Nat
  text : List Char
  marker : Bool
  elapsed : Nat
  md : List Char
deriving DecidableEq

/-- The mutable state of the poll loop: `lastTextLength`, `stableCount`,
whether the interval has been cleared (`onResponseComplete` fired), the chunks
emitted through `onNewChunk`, and the Markdown passed to `onFinalMarkdown`
(if any). -/
structure PollState where
  lastLen : Nat
  stable : Nat
  done : Bool
  chunks : List (List Char)
  finalMd : Option (List Char)
deriving DecidableEq

def initPollState : PollState := ⟨0, 0, false, [], none⟩

/-- The length/stability update of one candidate tick: growth emits the new
suffix and resets the stability counter; an unchanged non-zero length
increments it. -/
def updateObserved (st : PollState) (o : PollObs) : PollState :=
  if st.lastLen < o.text.length then
    { st with chunks := st.chunks ++ [o.text.drop st.lastLen],
              lastLen := o.text.length, stable := 0 }
  else if o.text.length = st.lastLen ∧ 0 < o.text.length then
    { st with stable := st.stable + 1 }
  else st

/-- One tick of the `setInterval` body of `streamResponse`. -/
def pollStep (init : Nat) (st : PollState) (o : PollObs) : PollState :=
  if st.done then st
  else if init < o.count then
    (if o.marker = true ∨
        (5 < (updateObserved st o).stable ∧ 0 < (updateObserved st o).lastLen) ∨
        120000 < o.elapsed then
      { (updateObserved st o) with
          done := true,
          finalMd := some (if jsTrimL o.md = [] then o.text else o.md) }
    else updateObserved st o)
  else if 30000 < o.elapsed then { st with done := true } else st

/-- Running the poll loop over a sequence of observations. -/
def pollRun (init : Nat) (obs : List PollObs) : PollState :=
  obs.foldl (pollStep init) initPollState

/-- The condition under which a single (not yet completed) tick clears the
interval: with a candidate beyond the baseline, a UI marker, six consecutive
unchanged non-empty ticks, or the 120-second hard ceiling; with no candidate,
the 30-second initial-appearance timeout. -/
def stepTrigger (init : Nat) (st : PollState) (o : PollObs) : Prop :=
  if init < o.count then
    o.marker = true ∨ (5 < (updateObserved st o).stable ∧ 0 < (updateObserved st o).lastLen) ∨
      120000 < o.elapsed
  else 30000 < o.elapsed

instance (init : Nat) (st : PollState) (o : PollObs) : Decidable (stepTrigger init st o) := by
  unfold stepTrigger; infer_instance

/-- Scenario A of the specification: the reply grows `"Hello"`, then
`"Hello world"`, then stays unchanged for six ticks with no completion
marker. -/
def scenarioA : List PollObs :=
  ⟨1, "Hello".data, false, 500, []⟩ ::
    ⟨1, "Hello world".data, false, 1000, []⟩ ::
    (List.replicate 6 ⟨1, "Hello world".data, false, 2000, "Hello world".data⟩)

/-! ## The clipboard interception of `fetchCopyMarkdown` -/

/-- A JavaScript function value, up to identity: a page-original function, a
fresh bound copy produced by `Function.prototype.bind`, or the interception
shim installed by `fetchCopyMarkdown`. -/
inductive JsFun where
  | base (id : Nat)
  | bound (f : JsFun)
  | shim
deriving DecidableEq

/-- The page's clipboard machinery: the value of
`navigator.clipboard.writeText` (`none` when the clipboard API is absent),
the value of `document.execCommand`, and the identifiers of the installed
`copy` event listeners. -/
structure ClipState where
  writeText : Option JsFun
  execCommand : JsFun
  copyListeners : List Nat
deriving DecidableEq

/-- The in-page effects of `fetchCopyMarkdown`, in program order. -/
inductive ClipEvent where
  | addListener (id : Nat)
  | patchWrite
  | patchExec
  | click
  | removeListener (id : Nat)
  | restoreWrite
  | restoreExec
  | resolve (v : Option (List Char))
deriving DecidableEq

/-- Function `fetchCopyMarkdown` as a transformer of the clipboard machinery.
`hasBtn` is whether a copy button was found (otherwise the function returns
`null` before patching anything); `captured` abstracts whatever value the
page's copy handler delivered to the interceptors during the 50 ms wait;
`newId` is the identity of the temporary `copy` listener.  Returns the final
machinery, the resolved value, and the ordered effect trace. -/
def fetchCopyMarkdown (st : ClipState) (hasBtn : Bool) (captured : Option (List Char))
    (newId : Nat) : ClipState × Option (List Char) × List ClipEvent :=
  if hasBtn = false then (st, none, [])
  else
    let st1 : ClipState := { st with copyListeners := st.copyListeners ++ [newId] }
    let origWrite : Option JsFun := st1.writeText.map JsFun.bound
    let st2 : ClipState :=
      match st1.writeText with
      | some _ => { st1 with writeText := some JsFun.shim }
      | none => st1
    let origExec := st2.execCommand
    let st3 : ClipState := { st2 with execCommand := JsFun.shim }
    let st4 : ClipState := { st3 with copyListeners := st3.copyListeners.filter (· ≠ newId) }
    let st5 : ClipState :=
      match origWrite with
      | some f => { st4 with writeText := some f }
      | none => st4
    let st6 : ClipState := { st5 with execCommand := origExec }
    let patchEvents :=
      ClipEvent.addListener newId ::
        (match st.writeText with
         | some _ => [ClipEvent.patchWrite]
         | none => []) ++ [ClipEvent.patchExec, ClipEvent.click]
    let restoreEvents :=
      ClipEvent.removeListener newId ::
        (match st.writeText with
         | some _ => [ClipEvent.restoreWrite]
         | none => []) ++ [ClipEvent.restoreExec, ClipEvent.resolve captured]
    (st6, captured, patchEvents ++ restoreEvents)

/-! ## Helper lemmas -/

theorem dropWhile_cons_head {α : Type} {p : α → Bool} :
    ∀ (l : List α) {c : α} {r : List α}, l.dropWhile p = c :: r → p c = false := by
  intro l
  induction l with
  | nil => intro c r h; simp [List.dropWhile] at h
  | cons a t ih =>
    intro c r h
    rw [List.dropWhile_cons] at h
    by_cases ha : p a = true
    · rw [if_pos ha] at h; exact ih h
    · rw [if_neg ha] at h
      cases h
      simpa using ha

/-- The hard-break test `prev.trim().endsWith('  ')` of `normalizeMarkdown` is
vacuous: a trimmed string never ends with two spaces. -/
theorem twoSpaceSuffix_jsTrimL (l : List Char) : twoSpaceSuffix (jsTrimL l) = false := by
  unfold jsTrimL twoSpaceSuffix
  rw [List.reverse_reverse]
  cases h : (l.dropWhile isJsWs).reverse.dropWhile isJsWs with
  | nil => rfl
  | cons c r =>
    have hc : isJsWs c = false := dropWhile_cons_head _ h
    have hsp : c ≠ ' ' := by
      intro hh
      rw [hh] at hc
      simp [isJsWs] at hc
    split
    · rename_i tail heq
      injection heq with h1 _
      exact absurd h1 hsp
    · rfl

/-! ## Claim theorems -/

/-- Claim C1 (code bug): `normalizeMarkdown` is not idempotent.  On the input
`"a|\nb|\n- -|-\nzzz"` the first pass soft-wrap-joins `"a|"` and `"b|"` into a
line with two pipes that sits directly above the bullet-style separator line
`"- -|-"`; the second pass therefore enters table mode there and joins the
following line `"zzz"` into the separator line, so the second application
changes the output again. -/
theorem claim1_normalizeMarkdown_not_idempotent :
    normalizeMarkdown (normalizeMarkdown ("a|\nb|\n- -|-\nzzz")) ≠
      normalizeMarkdown ("a|\nb|\n- -|-\nzzz") := by decide

/-- Claim C6 (code bug): the hard-break exception of the soft-wrap rule never
fires.  The fence-closing output line `"```  "` ends with the two-space
hard-break marker and is not a block start, yet the following line `"word"` is
appended to it; the guard `prev.trim().endsWith('  ')` is provably always
false because `trim` strips the trailing spaces before the test. -/
theorem claim6_hard_break_check_vacuous :
    normalizeMarkdown ("```\ncode\n```  \nword") = ("```\ncode\n```   word") ∧
      ∀ l : List Char, twoSpaceSuffix (jsTrimL l) = false :=
  ⟨by decide, twoSpaceSuffix_jsTrimL⟩

/-- Claim C7 (code bug): walking a bare `pre` element whose only child is the
text `print(hi)` produces an empty fenced block.  `querySelector` only
searches proper descendants, so on `<pre>text</pre>` the selector list
`code[data-test-id="code-content"], pre code, code, pre` matches nothing and
the code text is read as the empty string, although the element's
`textContent` is non-empty. -/
theorem claim7_pre_code_block_eval :
    domToMarkdown
        (DomNode.elem ("div".data) [] []
          [DomNode.elem ("pre".data) [] [] [DomNode.text ("print(hi)".data)]]) =
      ("```\n\n```") ∧
    textContent (DomNode.elem ("pre".data) [] [] [DomNode.text ("print(hi)".data)]) =
      "print(hi)".data := by
  constructor
  · decide
  · decide

/-- Claim C8 (code bug): for a table with an explicit `thead`, the selector
`querySelectorAll('tbody tr, tr')` also matches the header row, so the header
cells reappear as the first body row of the emitted pipe table. -/
theorem claim8_table_header_duplicated_eval :
    String.mk
        (extractTable
          (DomNode.elem ("table".data) [] []
            [DomNode.elem ("thead".data) [] []
              [DomNode.elem ("tr".data) [] []
                [DomNode.elem ("th".data) [] [] [DomNode.text ("A".data)],
                 DomNode.elem ("th".data) [] [] [DomNode.text ("B".data)]]],
             DomNode.elem ("tbody".data) [] []
              [DomNode.elem ("tr".data) [] []
                [DomNode.elem ("td".data) [] [] [DomNode.text ("1".data)],
                 DomNode.elem ("td".data) [] [] [DomNode.text ("2".data)]]]])) =
      ("\n\n| A | B |\n| --- | --- |\n| A | B |\n| 1 | 2 |\n\n") := by decide

/-- Claim C3 (confirmed): the final extraction uses the copy-action result if
it is non-blank; a `null`, empty or whitespace-only copy result is replaced by
the DOM-walker result; a non-blank copy result that fails the
looks-like-Markdown heuristic is replaced by the walker result when that is
non-blank (and kept otherwise); and in every case the chosen text passes
through `normalizeMarkdown`. -/
theorem claim3_extraction_selection :
    ∀ (copy : Option String) (dom : String),
      (∀ c, copy = some c → jsTrimL c.data ≠ [] → looksLikeMarkdown c = true →
        selectFinalText copy dom = normalizeMarkdown c) ∧
      ((copy = none ∨ ∃ c, copy = some c ∧ jsTrimL c.data = []) →
        selectFinalText copy dom = normalizeMarkdown dom) ∧
      (∀ c, copy = some c → jsTrimL c.data ≠ [] → looksLikeMarkdown c = false →
        jsTrimL dom.data ≠ [] → selectFinalText copy dom = normalizeMarkdown dom) ∧
      (∀ c, copy = some c → jsTrimL c.data ≠ [] → looksLikeMarkdown c = false →
        jsTrimL dom.data = [] → selectFinalText copy dom = normalizeMarkdown c) ∧
      (∃ s, selectFinalText copy dom = normalizeMarkdown s) := by
  intro copy dom
  refine ⟨?_, ?_, ?_, ?_, ?_⟩
  · rintro c rfl hne hmk
    simp [selectFinalText, hne, hmk]
  · rintro (rfl | ⟨c, rfl, hblank⟩)
    · rfl
    · simp [selectFinalText, hblank]
  · rintro c rfl hne hmk hdom
    simp [selectFinalText, hne, hmk, hdom]
  · rintro c rfl hne hmk hdom
    simp [selectFinalText, hne, hmk, hdom]
  · cases copy with
    | none => exact ⟨dom, rfl⟩
    | some c =>
      by_cases hblank : jsTrimL c.data = []
      · exact ⟨dom, by simp [selectFinalText, hblank]⟩
      · by_cases hmk : looksLikeMarkdown c = true
        · exact ⟨c, by simp [selectFinalText, hblank, hmk]⟩
        · by_cases hdom : jsTrimL dom.data = []
          · exact ⟨c, by simp [selectFinalText, hblank, hmk, hdom]⟩
          · exact ⟨dom, by simp [selectFinalText, hblank, hmk, hdom]⟩

/-- Witness for claim C3, scenario C of the specification: a copy-action
payload that fails the looks-like-Markdown heuristic is replaced by the
walker's bulleted list. -/
theorem claim3_extraction_selection_witness :
    selectFinalText (some ("plain sentence, no markdown")) ("- item one\n- item two") =
      normalizeMarkdown ("- item one\n- item two") :=
  (claim3_extraction_selection (some ("plain sentence, no markdown"))
      ("- item one\n- item two")).2.2.1 _ rfl (by decide) (by decide) (by decide)

/-! ## Fence-mode lemmas for `normalizeMarkdown` (claim C2) -/

theorem normStep_fenceLine (st : NormSt) (l n : Line) (h : isFenceLine l = true) :
    normStep st l n = { st with inFence := !st.inFence, out := l :: st.out } := by
  simp [normStep, h]

theorem normStep_inFence (st : NormSt) (l n : Line) (hl : isFenceLine l = false)
    (hf : st.inFence = true) : normStep st l n = { st with out := l :: st.out } := by
  simp [normStep, hl, hf]

theorem normStep_inFence_preserved (st : NormSt) (l n : Line) (hl : isFenceLine l = false) :
    (normStep st l n).inFence = st.inFence := by
  unfold normStep
  simp only [hl, Bool.false_eq_true, if_false]
  repeat' split
  all_goals rfl

theorem normStep_out_frame (st : NormSt) (l n : Line) (x : Line) (rest : List Line)
    (h : st.out = x :: rest) :
    ∃ f, f ≠ [] ∧ (normStep st l n).out = f ++ rest := by
  have hne : ¬ st.out = [] := by simp [h]
  by_cases h1 : isFenceLine l = true
  · exact ⟨[l, x], by simp, by simp [normStep, h1, h]⟩
  · by_cases h2 : st.inFence = true
    · exact ⟨[l, x], by simp, by simp [normStep, h1, h2, h]⟩
    · by_cases h3 : st.inTable = false ∧ 2 ≤ countPipes l ∧ isTableSepLine n = true
      · exact ⟨[l, x], by simp, by simp [normStep, h1, h2, h3, h]⟩
      · by_cases h4 : st.inTable = true
        · by_cases h5 : jsTrimL l = []
          · exact ⟨[[], x], by simp, by simp [normStep, h1, h2, h3, h4, h5, h]⟩
          · by_cases h6 : isTableSepLine l = true ∨ st.tablePipeCount ≤ countPipes l
            · exact ⟨[l, x], by simp, by simp [normStep, h1, h2, h3, h4, h5, h6, h]⟩
            · refine ⟨[x ++ ' ' :: jsTrimL l], by simp, ?_⟩
              simp [normStep, h1, h2, h3, h4, h5, h6, hne, h]
        · have h4f : st.inTable = false := by revert h4; cases st.inTable <;> simp
          have h3b : ¬(2 ≤ countPipes l ∧ isTableSepLine n = true) := fun hx =>
            h3 ⟨h4f, hx⟩
          by_cases h5 : jsTrimL l = []
          · exact ⟨[[], x], by simp, by simp [normStep, h1, h2, h3b, h4, h4f, h5, h]⟩
          · by_cases h6 : isBlockStart l = true
            · exact ⟨[l, x], by simp, by simp [normStep, h1, h2, h3b, h4, h4f, h5, h6, h]⟩
            · by_cases h7 : st.out ≠ [] ∧ st.out.headD [] ≠ [] ∧
                isBlockStart (st.out.headD []) = false ∧
                twoSpaceSuffix (jsTrimL (st.out.headD [])) = false
              · refine ⟨[x ++ ' ' :: jsTrimL l], by simp, ?_⟩
                have h7x : ¬x = [] ∧ isBlockStart x = false ∧
                    twoSpaceSuffix (jsTrimL x) = false := by
                  rw [h] at h7
                  exact ⟨h7.2.1, h7.2.2.1, h7.2.2.2⟩
                simp [normStep, h1, h2, h3b, h4, h4f, h5, h6, h7x, h]
              · have h7x : ¬(¬x = [] ∧ isBlockStart x = false ∧
                    twoSpaceSuffix (jsTrimL x) = false) := by
                  intro hx
                  apply h7
                  rw [h]
                  exact ⟨by simp, hx.1, hx.2.1, hx.2.2⟩
                exact ⟨[jsTrimL l, x], by simp,
                  by simp [normStep, h1, h2, h3b, h4, h4f, h5, h6, h7x, h]⟩

theorem normLoop_out_frame :
    ∀ (ls : List Line) (st : NormSt) (x : Line) (rest : List Line),
      st.out = x :: rest → ∃ f, f ≠ [] ∧ (normLoop st ls).out = f ++ rest := by
  intro ls
  induction ls with
  | nil =>
    intro st x rest h
    exact ⟨[x], by simp, by simpa [normLoop] using h⟩
  | cons l ls ih =>
    intro st x rest h
    obtain ⟨f, hf, hout⟩ := normStep_out_frame st l (ls.headD []) x rest h
    match f, hf with
    | y :: f2, _ =>
      obtain ⟨g, hg, hout2⟩ := ih (normStep st l (ls.headD [])) y (f2 ++ rest) (by simpa using hout)
      exact ⟨g ++ f2, by simp [hg], by simpa [normLoop] using hout2⟩

theorem normLoop_fence_content :
    ∀ (c : List Line) (st : NormSt) (rest : List Line),
      st.inFence = true → (∀ l ∈ c, isFenceLine l = false) →
      normLoop st (c ++ rest) = normLoop { st with out := c.reverse ++ st.out } rest := by
  intro c
  induction c with
  | nil => intro st rest _ _; simp
  | cons l c ih =>
    intro st rest hf hc
    have hl : isFenceLine l = false := hc l (by simp)
    have step1 : normLoop st ((l :: c) ++ rest) =
        normLoop { st with out := l :: st.out } (c ++ rest) := by
      show normLoop (normStep st l ((c ++ rest).headD [])) (c ++ rest) = _
      rw [normStep_inFence st l _ hl hf]
    rw [step1, ih { st with out := l :: st.out } rest hf (fun m hm => hc m (by simp [hm]))]
    simp

theorem parity_flip (k : Nat) :
    decide ((k + 1) % 2 = 1) = !decide (k % 2 = 1) := by
  rcases Nat.mod_two_eq_zero_or_one k with h | h
  · have h2 : (k + 1) % 2 = 1 := by omega
    simp [h, h2]
  · have h2 : (k + 1) % 2 = 0 := by omega
    simp [h, h2]

theorem normLoop_fence_block :
    ∀ (A : List Line) (st : NormSt) (o : Line) (c : List Line) (e : Line) (B : List Line),
      st.inFence = decide (A.countP isFenceLine % 2 = 1) →
      isFenceLine o = true → (∀ l ∈ c, isFenceLine l = false) → isFenceLine e = true →
      ∃ f pre, f ≠ [] ∧
        (normLoop st (A ++ o :: c ++ e :: B)).out = f ++ c.reverse ++ o :: pre := by
  intro A
  induction A with
  | nil =>
    intro st o c e B hparity ho hc he
    have hst : st.inFence = false := by simpa using hparity
    have step1 : normLoop st ([] ++ o :: c ++ e :: B) =
        normLoop { st with inFence := !st.inFence, out := o :: st.out } (c ++ e :: B) := by
      show normLoop (normStep st o ((c ++ e :: B).headD [])) (c ++ e :: B) = _
      rw [normStep_fenceLine st o _ ho]
    have step2 :
        normLoop { st with inFence := !st.inFence, out := o :: st.out } (c ++ e :: B) =
        normLoop { st with inFence := !st.inFence, out := c.reverse ++ o :: st.out }
          (e :: B) := by
      rw [normLoop_fence_content c _ (e :: B) (by simp [hst]) hc]
    obtain ⟨f, hf, hout⟩ :=
      normLoop_out_frame B
        (normStep { st with inFence := !st.inFence, out := c.reverse ++ o :: st.out } e
          (B.headD []))
        e (c.reverse ++ o :: st.out)
        (by rw [normStep_fenceLine _ e _ he])
    refine ⟨f, st.out, hf, ?_⟩
    rw [step1, step2]
    show (normLoop (normStep _ e (B.headD [])) B).out = _
    rw [hout]
    simp
  | cons a A ih =>
    intro st o c e B hparity ho hc he
    have hlist : (a :: A) ++ o :: c ++ e :: B = a :: (A ++ o :: c ++ e :: B) := by simp
    by_cases ha : isFenceLine a = true
    · have hcount : (a :: A).countP isFenceLine = A.countP isFenceLine + 1 := by
        simp [List.countP_cons, ha]
      have hparity2 :
          (normStep st a ((A ++ o :: c ++ e :: B).headD [])).inFence =
            decide (A.countP isFenceLine % 2 = 1) := by
        rw [normStep_fenceLine st a _ ha]
        show (!st.inFence) = decide (A.countP isFenceLine % 2 = 1)
        rw [hparity, hcount, parity_flip, Bool.not_not]
      have := ih (normStep st a ((A ++ o :: c ++ e :: B).headD [])) o c e B hparity2 ho hc he
      simpa [hlist, normLoop] using this
    · have ha2 : isFenceLine a = false := by simpa using ha
      have hcount : (a :: A).countP isFenceLine = A.countP isFenceLine := by
        simp [List.countP_cons, ha2]
      have hparity2 :
          (normStep st a ((A ++ o :: c ++ e :: B).headD [])).inFence =
            decide (A.countP isFenceLine % 2 = 1) := by
        rw [normStep_inFence_preserved st a _ ha2, hparity, hcount]
      have := ih (normStep st a ((A ++ o :: c ++ e :: B).headD [])) o c e B hparity2 ho hc he
      simpa [hlist, normLoop] using this

/-- Claim C2 (confirmed): for an input whose lines decompose as `A`, a
fence-opening line `o` (with an even number of fence-toggle lines before it),
content lines `c` none of which starts a fence, a closing fence line `e`, and
a tail `B`, `normalizeMarkdown` reproduces the content lines `c` contiguously
and byte-identically in its output; and a fence line always toggles fence
mode. -/
theorem claim2_fence_passthrough :
    (∀ (md : String) (A c B : List Line) (o e : Line),
      md.data.splitOn '\n' = A ++ o :: c ++ e :: B →
      A.countP isFenceLine % 2 = 0 →
      isFenceLine o = true → (∀ l ∈ c, isFenceLine l = false) → isFenceLine e = true →
      ∃ P Q, (normalizeMarkdown md).data = List.intercalate ['\n'] (P ++ c ++ Q)) ∧
    (∀ (st : NormSt) (l n : Line), isFenceLine l = true →
      (normStep st l n).inFence = !st.inFence) := by
  constructor
  · intro md A c B o e hsplit hparity ho hc he
    have hpar2 : initNormSt.inFence = decide (A.countP isFenceLine % 2 = 1) := by
      have : A.countP isFenceLine % 2 = 0 := hparity
      simp [initNormSt, this]
    obtain ⟨f, pre, hf, hout⟩ := normLoop_fence_block A initNormSt o c e B hpar2 ho hc he
    refine ⟨pre.reverse ++ [o], f.reverse, ?_⟩
    have : (normalizeMarkdown md).data =
        List.intercalate ['\n'] (normalizedLines (md.data.splitOn '\n')) := rfl
    rw [this, hsplit]
    unfold normalizedLines
    rw [hout]
    simp
  · intro st l n h
    rw [normStep_fenceLine st l n h]

/-- Witness for claim C2 at a concrete input with one fenced block. -/
theorem claim2_fence_passthrough_witness :
    ∃ P Q, (normalizeMarkdown ("intro\n```py\ncode line\n```\noutro")).data =
      List.intercalate ['\n'] (P ++ ["code line".data] ++ Q) :=
  claim2_fence_passthrough.1 ("intro\n```py\ncode line\n```\noutro")
    (["intro".data]) (["code line".data]) (["outro".data]) ("```py".data) ("```".data)
    (by decide) (by decide) (by decide) (by decide) (by decide)

/-! ## Poll-loop lemmas (claims C4, C5, C9) -/

theorem pollStep_done_absorb (init : Nat) (st : PollState) (o : PollObs)
    (h : st.done = true) : pollStep init st o = st := by
  simp [pollStep, h]

theorem pollFold_done_absorb (init : Nat) :
    ∀ (obs : List PollObs) (st : PollState), st.done = true →
      obs.foldl (pollStep init) st = st := by
  intro obs
  induction obs with
  | nil => intro st _; rfl
  | cons o obs ih =>
    intro st h
    show obs.foldl (pollStep init) (pollStep init st o) = st
    rw [pollStep_done_absorb init st o h]
    exact ih st h

theorem updateObserved_done (st : PollState) (o : PollObs) :
    (updateObserved st o).done = st.done := by
  unfold updateObserved
  split_ifs <;> rfl

theorem pollStep_done_iff (init : Nat) (st : PollState) (o : PollObs)
    (h : st.done = false) :
    ((pollStep init st o).done = true) ↔ stepTrigger init st o := by
  unfold pollStep stepTrigger
  rw [if_neg (by simp [h])]
  by_cases hc : init < o.count
  · rw [if_pos hc, if_pos hc]
    by_cases ht : o.marker = true ∨
        (5 < (updateObserved st o).stable ∧ 0 < (updateObserved st o).lastLen) ∨
        120000 < o.elapsed
    · rw [if_pos ht]
      simpa using ht
    · rw [if_neg ht]
      rw [updateObserved_done st o, h]
      simpa using ht
  · rw [if_neg hc, if_neg hc]
    by_cases he : 30000 < o.elapsed
    · rw [if_pos he]
      simpa using he
    · rw [if_neg he]
      rw [h]
      simpa using he

theorem pollFold_done_iff (init : Nat) :
    ∀ (obs : List PollObs) (st : PollState),
      ((obs.foldl (pollStep init) st).done = true) ↔
        (st.done = true ∨ ∃ pre o post, obs = pre ++ o :: post ∧
          ((pre.foldl (pollStep init) st).done = false) ∧
          stepTrigger init (pre.foldl (pollStep init) st) o) := by
  intro obs
  induction obs with
  | nil =>
    intro st
    constructor
    · intro hdone
      exact Or.inl hdone
    · rintro (hdone | ⟨pre, o, post, habs, _⟩)
      · exact hdone
      · exact absurd habs (by simp)
  | cons o0 obs ih =>
    intro st
    by_cases hd : st.done = true
    · rw [show (o0 :: obs).foldl (pollStep init) st =
          obs.foldl (pollStep init) (pollStep init st o0) from rfl]
      rw [pollStep_done_absorb init st o0 hd, pollFold_done_absorb init obs st hd]
      simp [hd]
    · have hd2 : st.done = false := by simpa using hd
      rw [show (o0 :: obs).foldl (pollStep init) st =
          obs.foldl (pollStep init) (pollStep init st o0) from rfl]
      rw [ih (pollStep init st o0)]
      constructor
      · rintro (hstep | ⟨pre, o, post, hsplit, hnd, htrig⟩)
        · exact Or.inr ⟨[], o0, obs, rfl, hd2, (pollStep_done_iff init st o0 hd2).mp hstep⟩
        · exact Or.inr ⟨o0 :: pre, o, post, by rw [hsplit]; rfl, hnd, htrig⟩
      · rintro (hdone | ⟨pre, o, post, hsplit, hnd, htrig⟩)
        · exact absurd hdone hd
        · cases pre with
          | nil =>
            simp only [List.nil_append] at hsplit
            injection hsplit with h1 h2
            subst h1
            subst h2
            exact Or.inl ((pollStep_done_iff init st o0 hd2).mpr htrig)
          | cons p0 pre2 =>
            rw [List.cons_append] at hsplit
            injection hsplit with h1 h2
            subst h1
            exact Or.inr ⟨pre2, o, post, h2, hnd, htrig⟩

/-- Claim C4 counterexample: the poller also completes on the 120-second hard
ceiling with a candidate present (first conjunct: one growing tick, no marker,
stability counter still zero) and on the 30-second initial-appearance timeout
with no candidate (second conjunct), so "marker present or six stable ticks"
is not exhaustive. -/
theorem claim4_counterexample :
    ((pollRun 0 [⟨1, "Hello".data, false, 120001, []⟩]).done = true ∧
      (pollRun 0 [⟨1, "Hello".data, false, 120001, []⟩]).stable = 0 ∧
      (∀ o ∈ [(⟨1, "Hello".data, false, 120001, []⟩ : PollObs)], o.marker = false)) ∧
    ((pollRun 0 [⟨0, [], false, 30001, []⟩]).done = true ∧
      (pollRun 0 [⟨0, [], false, 30001, []⟩]).chunks = [] ∧
      (∀ o ∈ [(⟨0, [], false, 30001, []⟩ : PollObs)], o.marker = false)) := by
  decide

/-- Claim C4 (amended): the poller completes exactly when some tick, reached
with the loop still live, fires `stepTrigger`: with a candidate beyond the
baseline, a UI completion marker, or an updated stability count above five
with non-zero observed length, or the 120-second hard ceiling; with no
candidate, the 30-second initial-appearance timeout.  Scenario A (grow
`"Hello"`, grow `"Hello world"`, six unchanged ticks, no marker) emits the
chunks `"Hello"` and `" world"` and completes. -/
theorem claim4_completion_characterization :
    (∀ (init : Nat) (obs : List PollObs),
      ((pollRun init obs).done = true) ↔
        ∃ pre o post, obs = pre ++ o :: post ∧
          ((pollRun init pre).done = false) ∧
          stepTrigger init (pollRun init pre) o) ∧
    (pollRun 0 scenarioA).chunks = ["Hello".data, " world".data] ∧
    (pollRun 0 scenarioA).done = true ∧
    (∀ o ∈ scenarioA, o.marker = false) := by
  refine ⟨?_, by decide, by decide, by decide⟩
  intro init obs
  have h := pollFold_done_iff init obs initPollState
  rw [show pollRun init obs = obs.foldl (pollStep init) initPollState from rfl, h]
  constructor
  · rintro (habs | hex)
    · exact absurd habs (by simp [initPollState])
    · exact hex
  · intro hex
    exact Or.inr hex

/-- Witness for claim C4: the characterization applied to scenario A. -/
theorem claim4_completion_characterization_witness :
    ∃ pre o post, scenarioA = pre ++ o :: post ∧
      ((pollRun 0 pre).done = false) ∧ stepTrigger 0 (pollRun 0 pre) o :=
  (claim4_completion_characterization.1 0 scenarioA).mp (by decide)

theorem updateObserved_lastLen_mono (st : PollState) (o : PollObs) :
    st.lastLen ≤ (updateObserved st o).lastLen := by
  unfold updateObserved
  split_ifs with h1 h2
  · exact Nat.le_of_lt h1
  · exact Nat.le_refl _
  · exact Nat.le_refl _

theorem pollStep_lastLen_mono (init : Nat) (st : PollState) (o : PollObs) :
    st.lastLen ≤ (pollStep init st o).lastLen := by
  unfold pollStep
  split_ifs <;> first
    | exact Nat.le_refl _
    | exact updateObserved_lastLen_mono st o

theorem pollFold_lastLen_mono (init : Nat) :
    ∀ (obs : List PollObs) (st : PollState),
      st.lastLen ≤ (obs.foldl (pollStep init) st).lastLen := by
  intro obs
  induction obs with
  | nil => intro st; exact Nat.le_refl _
  | cons o obs ih =>
    intro st
    exact Nat.le_trans (pollStep_lastLen_mono init st o) (ih (pollStep init st o))

theorem pollStep_growth_chunk (init : Nat) (st : PollState) (o : PollObs)
    (hd : st.done = false) (hc : init < o.count) (hg : st.lastLen < o.text.length) :
    (pollStep init st o).chunks = st.chunks ++ [o.text.drop st.lastLen] := by
  have hupd : updateObserved st o =
      { st with chunks := st.chunks ++ [o.text.drop st.lastLen],
                lastLen := o.text.length, stable := 0 } := by
    unfold updateObserved
    rw [if_pos hg]
  unfold pollStep
  rw [if_neg (by simp [hd]), if_pos hc, hupd]
  split_ifs <;> rfl

theorem pollStep_not_complete (init : Nat) (st : PollState) (o : PollObs)
    (hd : st.done = false) (hc : init < o.count)
    (hnd : (pollStep init st o).done = false) :
    pollStep init st o = updateObserved st o := by
  revert hnd
  unfold pollStep
  rw [if_neg (by simp [hd]), if_pos hc]
  split_ifs <;> intro hnd
  · simp at hnd
  · simp at hnd
  · rfl

theorem pollFold_concat (init : Nat) :
    ∀ (obs : List PollObs) (t : List Char) (st : PollState),
      st.done = false → st.lastLen = t.length → st.chunks.flatten = t →
      List.Chain (fun a b => a.isPrefixOf b = true) t (obs.map PollObs.text) →
      (∀ o ∈ obs, init < o.count) →
      (obs.foldl (pollStep init) st).done = false →
      (obs.foldl (pollStep init) st).chunks.flatten = (obs.map PollObs.text).getLastD t := by
  intro obs
  induction obs with
  | nil =>
    intro t st _ _ hflat _ _ _
    simpa using hflat
  | cons o obs ih =>
    intro t st hd hlen hflat hchain hcount hfin
    have hchain2 := List.chain_cons.mp hchain
    have hpre : t <+: o.text := List.isPrefixOf_iff_prefix.mp hchain2.1
    have hd2 : (pollStep init st o).done = false := by
      by_contra hdt
      have hdt2 : (pollStep init st o).done = true := by
        revert hdt
        cases (pollStep init st o).done <;> simp
      have := pollFold_done_absorb init obs (pollStep init st o) hdt2
      rw [show (o :: obs).foldl (pollStep init) st =
          obs.foldl (pollStep init) (pollStep init st o) from rfl, this] at hfin
      rw [hfin] at hdt2
      cases hdt2
    have hstep : pollStep init st o = updateObserved st o :=
      pollStep_not_complete init st o hd (hcount o (by simp)) hd2
    have hfold : (o :: obs).foldl (pollStep init) st =
        obs.foldl (pollStep init) (pollStep init st o) := rfl
    by_cases hg : st.lastLen < o.text.length
    · have hupd : updateObserved st o =
          { st with chunks := st.chunks ++ [o.text.drop st.lastLen],
                    lastLen := o.text.length, stable := 0 } := by
        unfold updateObserved
        rw [if_pos hg]
      obtain ⟨u, hu⟩ := hpre
      have hflat2 : (st.chunks ++ [o.text.drop st.lastLen]).flatten = o.text := by
        rw [List.flatten_append, hflat]
        simp only [List.flatten, List.append_nil]
        rw [hlen, ← hu, List.drop_left]
      rw [hfold, hstep, hupd]
      have := ih o.text
        { st with chunks := st.chunks ++ [o.text.drop st.lastLen],
                  lastLen := o.text.length, stable := 0 }
        hd rfl hflat2 hchain2.2 (fun p hp => hcount p (by simp [hp]))
        (by rw [hfold, hstep, hupd] at hfin; exact hfin)
      rw [List.map_cons, List.getLastD_cons]
      exact this
    · have hle : o.text.length ≤ st.lastLen := Nat.le_of_not_lt hg
      have hlen2 : o.text.length = t.length := by
        have := hpre.length_le
        omega
      have hteq : o.text = t := (List.IsPrefix.eq_of_length hpre hlen2.symm).symm
      have hupd2 : (updateObserved st o).chunks = st.chunks ∧
          (updateObserved st o).lastLen = st.lastLen ∧
          (updateObserved st o).done = st.done := by
        unfold updateObserved
        split_ifs <;> exact ⟨rfl, rfl, rfl⟩
      have hst2 : (updateObserved st o).chunks.flatten = t := by
        rw [hupd2.1, hflat]
      rw [hfold, hstep]
      have := ih o.text (updateObserved st o)
        (by rw [hupd2.2.2]; exact hd)
        (by rw [hupd2.2.1, hlen, hteq])
        (by rw [← hteq] at hst2; exact hst2)
        hchain2.2 (fun p hp => hcount p (by simp [hp]))
        (by rw [hfold, hstep] at hfin; exact hfin)
      rw [List.map_cons, List.getLastD_cons]
      exact this

/-- Claim C5 (confirmed): the tracked last-observed length never decreases
(per step and over any run); on a live tick with a candidate whose text is
longer than the tracked length, the emitted chunk is exactly the suffix of
the observed text beyond the tracked length; and when the observed texts grow
by extension, the concatenation of all emitted chunks of a run that has not
completed equals the final observed text. -/
theorem claim5_stream_monotonicity :
    (∀ (init : Nat) (st : PollState) (o : PollObs),
      st.lastLen ≤ (pollStep init st o).lastLen) ∧
    (∀ (init : Nat) (obs : List PollObs) (st : PollState),
      st.lastLen ≤ (obs.foldl (pollStep init) st).lastLen) ∧
    (∀ (init : Nat) (st : PollState) (o : PollObs),
      st.done = false → init < o.count → st.lastLen < o.text.length →
      (pollStep init st o).chunks = st.chunks ++ [o.text.drop st.lastLen]) ∧
    (∀ (init : Nat) (obs : List PollObs),
      List.Chain (fun a b => a.isPrefixOf b = true) [] (obs.map PollObs.text) →
      (∀ o ∈ obs, init < o.count) →
      (pollRun init obs).done = false →
      (pollRun init obs).chunks.flatten = (obs.map PollObs.text).getLastD []) :=
  ⟨pollStep_lastLen_mono, pollFold_lastLen_mono, pollStep_growth_chunk,
    fun init obs hchain hcount hfin =>
      pollFold_concat init obs [] initPollState rfl rfl rfl hchain hcount hfin⟩

/-- Witness for claim C5: two growing observations concatenate to the final
text `"Hello world"`. -/
theorem claim5_stream_monotonicity_witness :
    (pollRun 0 [⟨1, "Hello".data, false, 500, []⟩,
        ⟨1, "Hello world".data, false, 1000, []⟩]).chunks.flatten =
      (([⟨1, "Hello".data, false, 500, []⟩,
        ⟨1, "Hello world".data, false, 1000, []⟩] : List PollObs).map
          PollObs.text).getLastD [] :=
  claim5_stream_monotonicity.2.2.2 0
    [⟨1, "Hello".data, false, 500, []⟩, ⟨1, "Hello world".data, false, 1000, []⟩]
    (List.Chain.cons (by decide) (List.Chain.cons (by decide) List.Chain.nil))
    (by decide) (by decide)

theorem pollStep_no_candidate (init : Nat) (st : PollState) (o : PollObs)
    (h : ¬ init < o.count) :
    (pollStep init st o).chunks = st.chunks ∧
    (pollStep init st o).finalMd = st.finalMd ∧
    ((pollStep init st o).done = true ↔ (st.done = true ∨ 30000 < o.elapsed)) := by
  unfold pollStep
  by_cases hd : st.done = true
  · rw [if_pos (by simp [hd])]
    exact ⟨rfl, rfl, by simp [hd]⟩
  · have hd2 : st.done = false := by simpa using hd
    rw [if_neg (by simp [hd2]), if_neg h]
    by_cases he : 30000 < o.elapsed
    · rw [if_pos he]
      exact ⟨rfl, rfl, by simp [he]⟩
    · rw [if_neg he]
      exact ⟨rfl, rfl, by simp [hd2, he]⟩

theorem pollFold_no_candidate (init : Nat) :
    ∀ (obs : List PollObs) (st : PollState), (∀ o ∈ obs, ¬ init < o.count) →
      (obs.foldl (pollStep init) st).chunks = st.chunks ∧
      (obs.foldl (pollStep init) st).finalMd = st.finalMd := by
  intro obs
  induction obs with
  | nil => intro st _; exact ⟨rfl, rfl⟩
  | cons o obs ih =>
    intro st hcount
    have hstep := pollStep_no_candidate init st o (hcount o (by simp))
    have hrest := ih (pollStep init st o) (fun p hp => hcount p (by simp [hp]))
    exact ⟨hrest.1.trans hstep.1, hrest.2.trans hstep.2.1⟩

/-- Claim C9 (confirmed): if the candidate count never exceeds the baseline up
to a tick at which the 30-second initial-appearance timeout has elapsed, the
poller signals completion, and no chunk and no final Markdown is ever emitted
for the turn (whatever observations follow the stop). -/
theorem claim9_no_candidate_timeout :
    ∀ (init : Nat) (pre post : List PollObs) (o : PollObs),
      (∀ p ∈ pre, ¬ init < p.count) → ¬ init < o.count → 30000 < o.elapsed →
      ((pollRun init (pre ++ o :: post)).done = true ∧
       (pollRun init (pre ++ o :: post)).chunks = [] ∧
       (pollRun init (pre ++ o :: post)).finalMd = none) := by
  intro init pre post o hpre ho he
  have hfold : pollRun init (pre ++ o :: post) =
      post.foldl (pollStep init)
        (pollStep init (pre.foldl (pollStep init) initPollState) o) := by
    show (pre ++ o :: post).foldl (pollStep init) initPollState = _
    rw [List.foldl_append]
    rfl
  have hprefold := pollFold_no_candidate init pre initPollState hpre
  have hstep := pollStep_no_candidate init (pre.foldl (pollStep init) initPollState) o ho
  have hdone : (pollStep init (pre.foldl (pollStep init) initPollState) o).done = true :=
    hstep.2.2.mpr (Or.inr he)
  have habs := pollFold_done_absorb init post _ hdone
  rw [hfold, habs]
  refine ⟨hdone, ?_, ?_⟩
  · rw [hstep.1, hprefold.1]
    rfl
  · rw [hstep.2.1, hprefold.2]
    rfl

/-- Witness for claim C9, scenario D of the specification: the timeout elapses
with zero matching elements and the emitted output is empty. -/
theorem claim9_no_candidate_timeout_witness :
    (pollRun 0 ([] ++ (⟨0, [], false, 30001, []⟩ : PollObs) :: [])).done = true ∧
    (pollRun 0 ([] ++ (⟨0, [], false, 30001, []⟩ : PollObs) :: [])).chunks = [] ∧
    (pollRun 0 ([] ++ (⟨0, [], false, 30001, []⟩ : PollObs) :: [])).finalMd = none :=
  claim9_no_candidate_timeout 0 [] [] ⟨0, [], false, 30001, []⟩
    (by simp) (by decide) (by decide)

/-! ## Clipboard lemmas (claim C10) -/

theorem filter_append_fresh {l : List Nat} {id : Nat} (h : id ∉ l) :
    (l ++ [id]).filter (· ≠ id) = l := by
  rw [List.filter_append]
  have h1 : [id].filter (· ≠ id) = [] := by simp
  have h2 : l.filter (· ≠ id) = l :=
    List.filter_eq_self.mpr (fun a ha => by
      simp only [ne_eq, decide_eq_true_eq]
      intro hcontra
      rw [hcontra] at ha
      exact h ha)
  rw [h1, h2, List.append_nil]

/-- Claim C10 counterexample: the claim that `fetchCopyMarkdown` leaves the
clipboard machinery equal to its initial state is false: after a run with a
copy button present, `navigator.clipboard.writeText` holds a fresh bound copy
of the original rather than the original function value. -/
theorem claim10_counterexample :
    ¬ ((fetchCopyMarkdown ⟨some (JsFun.base 0), JsFun.base 1, []⟩ true
        (some ("markdown".data)) 5).1 =
      (⟨some (JsFun.base 0), JsFun.base 1, []⟩ : ClipState)) := by decide

/-- Claim C10 (amended): with no copy button nothing is touched; otherwise
`fetchCopyMarkdown` removes its temporary copy listener, restores
`document.execCommand` to its exact original value, and replaces
`navigator.clipboard.writeText` by a bound copy of its original value (a
fresh, functionally equivalent function object), and every one of these
restorations happens before the captured value (possibly `null`) is
resolved. -/
theorem claim10_clipboard_restoration :
    ∀ (st : ClipState) (hasBtn : Bool) (captured : Option (List Char)) (newId : Nat),
      newId ∉ st.copyListeners →
      (hasBtn = false → fetchCopyMarkdown st hasBtn captured newId = (st, none, [])) ∧
      (hasBtn = true →
        ((fetchCopyMarkdown st hasBtn captured newId).1.execCommand = st.execCommand ∧
         (fetchCopyMarkdown st hasBtn captured newId).1.copyListeners = st.copyListeners ∧
         (fetchCopyMarkdown st hasBtn captured newId).1.writeText =
           st.writeText.map JsFun.bound ∧
         (fetchCopyMarkdown st hasBtn captured newId).2.1 = captured ∧
         (fetchCopyMarkdown st hasBtn captured newId).2.2.getLast? =
           some (ClipEvent.resolve captured) ∧
         ClipEvent.removeListener newId ∈
           (fetchCopyMarkdown st hasBtn captured newId).2.2.dropLast ∧
         ClipEvent.restoreExec ∈
           (fetchCopyMarkdown st hasBtn captured newId).2.2.dropLast ∧
         (st.writeText ≠ none → ClipEvent.restoreWrite ∈
           (fetchCopyMarkdown st hasBtn captured newId).2.2.dropLast))) := by
  intro st hasBtn captured newId hfresh
  constructor
  · intro hbtn
    simp [fetchCopyMarkdown, hbtn]
  · intro hbtn
    subst hbtn
    have hall : ∀ a ∈ st.copyListeners, ¬ a = newId := fun a ha hcontra =>
      hfresh (hcontra ▸ ha)
    cases hw : st.writeText with
    | none =>
      refine ⟨?_, ?_, ?_, ?_, ?_, ?_, ?_, ?_⟩ <;>
        (simp [fetchCopyMarkdown, hw, filter_append_fresh hfresh] <;> exact hall)
    | some f =>
      refine ⟨?_, ?_, ?_, ?_, ?_, ?_, ?_, ?_⟩ <;>
        (simp [fetchCopyMarkdown, hw, filter_append_fresh hfresh] <;> exact hall)

/-- Witness for claim C10: a concrete run restores the listener list and
`execCommand`, rebinds `writeText`, and resolves last. -/
theorem claim10_clipboard_restoration_witness :
    (fetchCopyMarkdown ⟨some (JsFun.base 0), JsFun.base 1, [7]⟩ true
        (some ("md".data)) 3).1.copyListeners = [7] ∧
    (fetchCopyMarkdown ⟨some (JsFun.base 0), JsFun.base 1, [7]⟩ true
        (some ("md".data)) 3).2.2.getLast? =
      some (ClipEvent.resolve (some ("md".data))) :=
  ⟨((claim10_clipboard_restoration ⟨some (JsFun.base 0), JsFun.base 1, [7]⟩ true
      (some ("md".data)) 3 (by decide)).2 rfl).2.1,
   ((claim10_clipboard_restoration ⟨some (JsFun.base 0), JsFun.base 1, [7]⟩ true
      (some ("md".data)) 3 (by decide)).2 rfl).2.2.2.2.1⟩

end Chatbot
